import Mathlib

/-!
Verification of the obsidian-task-archiver archiving engine against its
specification.  The development shallowly embeds the code of
`src/features/Archiver.ts` (the archiving orchestrator) together with the
document tree model it operates on.  Collaborator classes whose sources are
not part of the snapshot (the Section/Block model files, the tree-extraction
utilities, the placeholder resolver) are modelled from the specification; each
such definition carries a doc comment beginning with "Modelled from the spec".
Collaborators that the spec declares out of scope (text replacement, metadata
annotation, date formatting, date-tree merging) are abstracted as function
parameters bundled in `Collab`.
-/

namespace TaskArchiver

/-- Modelled from the spec (src/model/Block.ts is not in the snapshot): a
Block is one list item's text (possibly multi-line) together with its ordered
list of child Blocks.  The RootBlock variant is represented by empty text. -/
inductive Block where
  | mk (text : String) (children : List Block)

/-- The text of a block. -/
def Block.text : Block → String
  | .mk t _ => t

/-- The ordered children of a block. -/
def Block.children : Block → List Block
  | .mk _ cs => cs

/-- Modelled from the spec (src/model/RootBlock.ts is not in the snapshot):
the synthetic top-level container for blocks directly under a heading; it has
no text of its own. -/
def RootBlock : Block := .mk "" []

/-- Modelled from the spec (src/model/Section.ts is not in the snapshot): a
Section is a heading's text, its `tokenLevel` (heading depth, 1 = top, 0 for
the virtual parse root), the RootBlock holding list items directly under the
heading, and the ordered list of child Sections. -/
inductive Section where
  | mk (text : String) (tokenLevel : Int) (blockContent : Block) (children : List Section)

/-- The heading text of a section. -/
def Section.text : Section → String
  | .mk t _ _ _ => t

/-- The heading depth of a section. -/
def Section.tokenLevel : Section → Int
  | .mk _ l _ _ => l

/-- The root block holding the list items directly under this heading. -/
def Section.blockContent : Section → Block
  | .mk _ _ b _ => b

/-- The ordered child sections. -/
def Section.children : Section → List Section
  | .mk _ _ _ cs => cs

/-- `Section.appendChild` from the Section model: appends a child section at
the end of the children list (used by `getArchiveSectionFromRoot` and
`archiveSection` in Archiver.ts). -/
def Section.appendChild : Section → Section → Section
  | .mk t l b cs, c => .mk t l b (cs ++ [c])

/-- Replaces the block content of a section, keeping everything else. -/
def Section.setBlockContent : Section → Block → Section
  | .mk t l _ cs, b => .mk t l b cs

/-- The empty document tree: parsing an empty file yields the virtual root
section (level 0, no text) with no content. -/
def emptyRootSection : Section := .mk "" 0 RootBlock []

mutual
/-- Pre-order list of all heading texts in a section tree. -/
def Section.sectionTexts : Section → List String
  | .mk t _ _ cs => t :: sectionTextsList cs

/-- Pre-order heading texts of a list of sibling sections. -/
def sectionTextsList : List Section → List String
  | [] => []
  | c :: cs => c.sectionTexts ++ sectionTextsList cs
end

mutual
/-- Pre-order list of the `tokenLevel`s of every section in a tree. -/
def Section.sectionLevels : Section → List Int
  | .mk _ l _ cs => l :: sectionLevelsList cs

/-- Pre-order `tokenLevel`s of a list of sibling sections. -/
def sectionLevelsList : List Section → List Int
  | [] => []
  | c :: cs => c.sectionLevels ++ sectionLevelsList cs
end

mutual
/-- Shifts the `tokenLevel` of every section in the tree by the same delta. -/
def shiftSectionLevels (d : Int) : Section → Section
  | .mk t l b cs => .mk t (l + d) b (shiftSectionLevelsList d cs)

/-- Shifts the `tokenLevel`s of a list of sibling section trees by a delta. -/
def shiftSectionLevelsList (d : Int) : List Section → List Section
  | [] => []
  | c :: cs => shiftSectionLevels d c :: shiftSectionLevelsList d cs
end

/-- Modelled from the spec (src/model/Section.ts is not in the snapshot):
`recalculateTokenLevels(newLevel)` re-levels a moved sub-tree so that its top
section receives `newLevel` and every descendant is shifted by the same
delta, preserving the sub-tree's internal relative nesting. -/
def Section.recalculateTokenLevels (newLevel : Int) (s : Section) : Section :=
  shiftSectionLevels (newLevel - s.tokenLevel) s

/-- Decides whether `pat` occurs as a contiguous run inside `l`. -/
def containsSub (pat : List Char) : List Char → Bool
  | [] => pat.isEmpty
  | c :: rest => pat.isPrefixOf (c :: rest) || containsSub pat rest

/-- Modelled from the spec (`buildHeadingPattern` lives in src/util/Util.ts,
which is not in the snapshot): the recognition pattern built from the
configured archive-heading template matches any heading line produced from
that template; Archiver.ts uses the heading template without substituting
placeholders into it, so the pattern is modelled as an unanchored search for
the template text, mirroring how a JavaScript `RegExp.test` searches anywhere
in the line. -/
def headingPatternTest (heading line : String) : Bool :=
  containsSub heading.toList line.toList

mutual
/-- Modelled from the spec (`findSectionRecursively` lives in
src/util/Util.ts, which is not in the snapshot): recursive first-match
search over a section tree, visiting a section before its children and
children left to right. -/
def findSectionRecursively (p : Section → Bool) : Section → Option Section
  | .mk t l b cs =>
    if p (.mk t l b cs) then some (.mk t l b cs)
    else findSectionInList p cs

/-- First match of `findSectionRecursively` over sibling sections. -/
def findSectionInList (p : Section → Bool) : List Section → Option Section
  | [] => none
  | c :: cs =>
    match findSectionRecursively p c with
    | some s => some s
    | none => findSectionInList p cs
end

mutual
/-- Applies `f` in place to the first section matched by
`findSectionRecursively p`, leaving the rest of the tree untouched.  This is
the purely functional rendering of Archiver.ts mutating the section object
returned by the recursive search. -/
def updateSectionRecursively (p : Section → Bool) (f : Section → Section) : Section → Section
  | .mk t l b cs =>
    if p (.mk t l b cs) then f (.mk t l b cs)
    else .mk t l b (updateSectionInList p f cs)

/-- In-place update of the first matching section among siblings. -/
def updateSectionInList (p : Section → Bool) (f : Section → Section) : List Section → List Section
  | [] => []
  | c :: cs =>
    if (findSectionRecursively p c).isSome then updateSectionRecursively p f c :: cs
    else c :: updateSectionInList p f cs
end

/-- Appends a blank block at the end of a root block's children. -/
def appendBlankBlock : Block → Block
  | .mk t cs => .mk t (cs ++ [Block.mk "" []])

mutual
/-- Modelled from the spec (`addNewlinesToSection` lives in src/util/Util.ts,
which is not in the snapshot): inserts a blank-line separator before a newly
appended archive heading by adding a blank block after the last content of
the tree; it changes only block content, never heading texts or levels. -/
def addNewlinesToSection : Section → Section
  | .mk t l b [] => .mk t l (appendBlankBlock b) []
  | .mk t l b (c :: cs) => .mk t l b (addNewlinesToLast (c :: cs))

/-- Walks to the last sibling and applies `addNewlinesToSection` there. -/
def addNewlinesToLast : List Section → List Section
  | [] => []
  | [c] => [addNewlinesToSection c]
  | c :: c2 :: cs => c :: addNewlinesToLast (c2 :: cs)
end

/-- A routing rule (src/Settings.ts is not in the snapshot; the fields are
those Archiver.ts reads): the status markers it applies to (a string whose
characters are the markers, queried with `statuses.includes(status)`), the
separate-file flag, the destination path template, and the date format. -/
structure Rule where
  statuses : String
  archiveToSeparateFile : Bool
  defaultArchiveFileName : String
  dateFormat : String
deriving DecidableEq

/-- The slice of the plugin settings that Archiver.ts reads.
`additionalMetadataDateFormat` stands for
`settings.additionalMetadataBeforeArchiving.dateFormat`. -/
structure Settings where
  rules : List Rule
  archiveToSeparateFile : Bool
  defaultArchiveFileName : String
  additionalMetadataDateFormat : String
  dateFormat : String
  archiveHeading : String
  archiveHeadingDepth : Int
  archiveUnderHeading : Bool
  addNewlinesAroundHeadings : Bool
deriving DecidableEq

/-- A block paired with the rule routing it (Archiver.ts `BlockWithRule`;
by the time `archiveTasks` runs, the rule is always present). -/
structure BlockWithRule where
  task : Block
  rule : Rule

/-- `getDefaultRule` from Archiver.ts: the fallback rule derived from global
settings; its status set is empty. -/
def getDefaultRule (st : Settings) : Rule :=
  { archiveToSeparateFile := st.archiveToSeparateFile
    defaultArchiveFileName := st.defaultArchiveFileName
    dateFormat := st.additionalMetadataDateFormat
    statuses := "" }

/-- The scan performed by the regular expression `\[(.)]` in
`getTaskStatus` (Archiver.ts): the leftmost occurrence of an opening
bracket, any single character that is not a line terminator, and a closing
bracket; returns the captured character. -/
def scanTaskStatus : List Char → Option Char
  | '[' :: c :: ']' :: rest =>
    if c ≠ '\n' ∧ c ≠ '\r' then some c else scanTaskStatus (c :: ']' :: rest)
  | _ :: rest => scanTaskStatus rest
  | [] => none

/-- `getTaskStatus` returns the captured status marker; `none` models the
regular-expression match being `null`, in which case the destructuring in
Archiver.ts line 210 throws a TypeError. -/
def getTaskStatus (task : Block) : Option Char :=
  scanTaskStatus task.text.toList

/-- The rule-assignment step of `extractAndArchiveTasksInActiveFile`
(Archiver.ts lines 138-144):
`settings.rules.find(rule => rule.statuses.includes(getTaskStatus(task))) ||
getDefaultRule()`.  The `find` callback runs once per configured rule, so
with zero configured rules `getTaskStatus` is never called and the default
rule is used; with at least one configured rule, a task whose status marker
cannot be extracted makes `getTaskStatus` throw (destructuring a `null`
match), modelled as `Except.error`. -/
def assignRule (st : Settings) (text : String) : Except String Rule :=
  match st.rules with
  | [] => .ok (getDefaultRule st)
  | r :: rs =>
    match scanTaskStatus text.toList with
    | none => .error "TypeError: cannot destructure null task status match"
    | some c =>
      .ok (((r :: rs).find? (fun rl => rl.statuses.toList.contains c)).getD
            (getDefaultRule st))

/-- Replaces the first occurrence of `pat` in a character list by `repl`,
the semantics of JavaScript `String.prototype.replace` with a string
pattern. -/
def replaceFirstSub (pat repl : List Char) : List Char → List Char
  | [] => []
  | c :: rest =>
    if pat.isPrefixOf (c :: rest) then repl ++ (c :: rest).drop pat.length
    else c :: replaceFirstSub pat repl rest

/-- `completeTask` from Archiver.ts: `task.replace("[ ]", "[x]")`, which
replaces only the first occurrence. -/
def completeTask (task : String) : String :=
  (replaceFirstSub "[ ]".toList "[x]".toList task.toList).asString

/-- The tree filter used by extraction: the pluggable block predicate plus
the section filter excluding archive sections. -/
structure TreeFilter where
  blockFilter : Block → Bool
  sectionFilter : Section → Bool

/-- `isArchive` from Archiver.ts: tests a line against the archive-heading
recognition pattern. -/
def isArchive (st : Settings) (line : String) : Bool :=
  headingPatternTest st.archiveHeading line

/-- `shallowExtractBlocks` (Modelled from the spec; src/util/Util.ts is not
in the snapshot): only the top-level blocks of a section's block content are
tested; each matching block is removed and extracted whole, children
included.  Returns the extracted blocks in document order together with the
mutated root block. -/
def shallowExtractBlocks (filter : Block → Bool) (root : Block) : List Block × Block :=
  match root with
  | .mk t cs => (cs.filter filter, .mk t (cs.filter (fun b => !filter b)))

mutual
/-- `deepExtractBlocks` (Modelled from the spec; src/util/Util.ts is not in
the snapshot): every block at every nesting depth is tested independently; a
matching block is extracted whole, a non-matching block stays in place and
its children are searched, so a matching child of a non-matching parent is
extracted alone while the parent keeps its other children. -/
def deepExtractBlocks (filter : Block → Bool) : Block → List Block × Block
  | .mk t cs =>
    let p := deepExtractList filter cs
    (p.1, .mk t p.2)

/-- Deep extraction over sibling blocks, in document order. -/
def deepExtractList (filter : Block → Bool) : List Block → List Block × List Block
  | [] => ([], [])
  | b :: bs =>
    let rest := deepExtractList filter bs
    if filter b then (b :: rest.1, rest.2)
    else
      let pb := deepExtractBlocks filter b
      (pb.1 ++ rest.1, pb.2 :: rest.2)
end

/-- The type of the two pluggable extractors (`BlockExtractor` in
Archiver.ts, rendered purely: extracted blocks plus mutated root). -/
def BlockExtractor : Type :=
  (Block → Bool) → Block → List Block × Block

mutual
/-- `extractBlocksRecursively` (Modelled from the spec; src/util/Util.ts is
not in the snapshot): applies the extractor to the section's own block
content first, then recurses into child sections passing the section
filter, left to right (pre-order); sections failing the filter are left
untouched. -/
def extractBlocksRecursively (tf : TreeFilter) (extractor : BlockExtractor) : Section → List Block × Section
  | .mk t l b cs =>
    let pb := extractor tf.blockFilter b
    let ps := extractSectionList tf extractor cs
    (pb.1 ++ ps.1, .mk t l pb.2 ps.2)

/-- Recursive extraction over sibling sections. -/
def extractSectionList (tf : TreeFilter) (extractor : BlockExtractor) : List Section → List Block × List Section
  | [] => ([], [])
  | c :: cs =>
    let pc :=
      if tf.sectionFilter c then extractBlocksRecursively tf extractor c
      else ([], c)
    let ps := extractSectionList tf extractor cs
    (pc.1 ++ ps.1, pc.2 :: ps.2)
end

/-- `extractTasksFromActiveFile` from Archiver.ts: extraction over the
active file's tree under the Archiver's task filter (the pluggable
`doesTaskNeedArchiving` predicate `bf` plus the section filter rejecting
archive sections).  The mutated tree is written back by `editFileTree`;
this rendering returns it alongside the extracted blocks. -/
def extractTasksFromActiveFile (st : Settings) (bf : Block → Bool)
    (extractor : BlockExtractor) (tree : Section) : List Block × Section :=
  extractBlocksRecursively
    { blockFilter := bf, sectionFilter := fun sec => !(isArchive st sec.text) }
    extractor tree

/-- The section predicate Archiver.ts passes to the recursive search:
`section => archiveHeadingPattern.test(section.text)`. -/
def archivePred (st : Settings) : Section → Bool :=
  fun sec => isArchive st sec.text

/-- `buildArchiveSection` from Archiver.ts: a new section whose text is a
space followed by the configured archive heading (the space separates the
heading markers from the title when serialized), at the configured archive
heading depth, with an empty root block. -/
def buildArchiveSection (st : Settings) : Section :=
  .mk (" " ++ st.archiveHeading) st.archiveHeadingDepth RootBlock []

/-- `getArchiveSectionFromRoot` from Archiver.ts, as a pure function
returning the archive section together with the (possibly extended)
document root: the root itself when archiving to a separate file with no
wrapping heading; otherwise the first section matching the archive-heading
pattern; otherwise a freshly built archive section appended as the last
child of the root, after optionally adding blank-line separators. -/
def getArchiveSectionFromRoot (st : Settings) (root : Section) : Section × Section :=
  if st.archiveToSeparateFile && !st.archiveUnderHeading then (root, root)
  else
    match findSectionRecursively (archivePred st) root with
    | some s => (s, root)
    | none =>
      let base := if st.addNewlinesAroundHeadings then addNewlinesToSection root else root
      let n := buildArchiveSection st
      (n, base.appendChild n)

/-- The callers of `getArchiveSectionFromRoot` mutate the returned section
in place; this rendering applies the mutation `f` at the archive section's
position inside the tree: to the root in the separate-file-no-heading case,
to the first matching section when one exists, and to the freshly appended
section otherwise. -/
def updateArchiveSection (st : Settings) (root : Section) (f : Section → Section) : Section :=
  if st.archiveToSeparateFile && !st.archiveUnderHeading then f root
  else
    match findSectionRecursively (archivePred st) root with
    | some _ => updateSectionRecursively (archivePred st) f root
    | none =>
      let base := if st.addNewlinesAroundHeadings then addNewlinesToSection root else root
      base.appendChild (f (buildArchiveSection st))

/-- The collaborators Archiver.ts consumes whose behaviour the spec leaves
abstract or whose sources are not in the snapshot: text replacement,
metadata annotation, placeholder resolution (template and date format to a
path, at the current timestamp), and the date-tree merge of new blocks into
an archive section's block content. -/
structure Collab where
  replaceText : Block → Block
  appendMetadata : BlockWithRule → BlockWithRule
  resolvePlaceholders : String → String → String
  mergeNewBlocksWithDateTree : Block → List Block → Block

/-- The archive path computed for one task in `archiveTasks` (Archiver.ts
lines 182-190): the resolved path template for a separate-file rule, and the
sentinel string "current-file" otherwise. -/
def resolvedArchivePath (resolve : String → String → String) (r : Rule) : String :=
  if r.archiveToSeparateFile then resolve r.defaultArchiveFileName r.dateFormat
  else "current-file"

/-- Where a group of tasks is written. -/
inductive Dest where
  | active
  | disk (path : String)
deriving DecidableEq

/-- The destination chosen for an archive path in `archiveTasks` (lines
194-198): the active file for the sentinel "current-file", otherwise the
disk file at the path with ".md" appended (`getDiskFile`). -/
def destinationFor (path : String) : Dest :=
  if path = "current-file" then .active else .disk (path ++ ".md")

/-- Appends a value under a key, preserving first-occurrence key order and
insertion order within a group (the behaviour of lodash `groupBy` followed
by `toPairs` on string keys). -/
def addToGroups (k : String) (v : Block) : List (String × List Block) → List (String × List Block)
  | [] => [(k, [v])]
  | (k2, vs) :: gs =>
    if k2 = k then (k2, vs ++ [v]) :: gs else (k2, vs) :: addToGroups k v gs

/-- Groups path-tagged tasks by path. -/
def groupByPath (l : List (String × Block)) : List (String × List Block) :=
  l.foldl (fun gs kv => addToGroups kv.1 kv.2 gs) []

/-- The in-memory state the orchestrator edits: the active file's tree and
the disk files' trees keyed by full path (including ".md"). -/
structure World where
  active : Section
  disk : List (String × Section)

/-- Reads a disk file's tree, creating an empty document when absent
(`getOrCreateFile` creates the file with empty content). -/
def getDiskTree (w : World) (path : String) : Section :=
  (((w.disk.find? (fun kv => kv.1 = path)).map Prod.snd)).getD emptyRootSection

/-- Writes a disk file's tree back. -/
def setDiskTree : List (String × Section) → String → Section → List (String × Section)
  | [], p, t => [(p, t)]
  | (k, v) :: rest, p, t =>
    if k = p then (p, t) :: rest else (k, v) :: setDiskTree rest p t

/-- `archiveBlocksToRoot` from Archiver.ts: finds-or-creates the archive
section in a destination tree and merges the tasks into its block content
through the date-tree resolver. -/
def archiveBlocksToRoot (cb : Collab) (st : Settings) (tasks : List Block) (root : Section) : Section :=
  updateArchiveSection st root
    (fun arch => arch.setBlockContent (cb.mergeNewBlocksWithDateTree arch.blockContent tasks))

/-- `archiveTasks` from Archiver.ts: applies text replacement and metadata
annotation to every task, computes each task's archive path from its rule,
groups the tasks by path, and writes every group to its destination
document (the active file for the "current-file" sentinel, a disk file
otherwise). -/
def archiveTasks (cb : Collab) (st : Settings) (tws : List BlockWithRule) (w : World) : World :=
  let replaced := tws.map (fun tw => { tw with task := cb.replaceText tw.task })
  let withMeta := replaced.map cb.appendMetadata
  let withPaths := withMeta.map
    (fun tw => (resolvedArchivePath cb.resolvePlaceholders tw.rule, tw.task))
  let groups := groupByPath withPaths
  groups.foldl
    (fun w kv =>
      match destinationFor kv.1 with
      | .active => { w with active := archiveBlocksToRoot cb st kv.2 w.active }
      | .disk p =>
        { w with disk := setDiskTree w.disk p (archiveBlocksToRoot cb st kv.2 (getDiskTree w p)) })
    w

/-- `extractAndArchiveTasksInActiveFile` from Archiver.ts: extracts matching
tasks from the active file (whose mutated tree is written back), assigns a
rule to each one (`Except.error` models the TypeError thrown on a task
whose status marker cannot be extracted while rules are configured),
archives the tasks, and reports the count. -/
def extractAndArchiveTasksInActiveFile (cb : Collab) (st : Settings) (bf : Block → Bool)
    (extractor : BlockExtractor) (w : World) : Except String (World × String) :=
  let p := extractTasksFromActiveFile st bf extractor w.active
  let w1 : World := { w with active := p.2 }
  match p.1.mapM (fun t => (assignRule st t.text).map (fun r => BlockWithRule.mk t r)) with
  | .error e => .error e
  | .ok tws =>
    let w2 := archiveTasks cb st tws w1
    .ok (w2, if p.1.isEmpty then "No tasks to archive"
             else "Archived " ++ toString p.1.length ++ " tasks")

/-- `deleteTasksInActiveFile` from Archiver.ts: extracts with the shallow
extractor (the mutated source is written back), discards the extracted
blocks, and reports the count; no destination document is touched. -/
def deleteTasksInActiveFile (st : Settings) (bf : Block → Bool) (w : World) : World × String :=
  let p := extractTasksFromActiveFile st bf shallowExtractBlocks w.active
  ({ w with active := p.2 },
   if p.1.isEmpty then "No tasks to delete"
   else "Deleted " ++ toString p.1.length ++ " tasks")

/-- The single task archived by `archiveTaskUnderCursor` (Archiver.ts lines
104-113): the parsed block with its text completed, routed through the
default rule. -/
def archiveTaskUnderCursorTask (st : Settings) (t : Block) : BlockWithRule :=
  { task := Block.mk (completeTask t.text) t.children, rule := getDefaultRule st }

/-- The tree edit performed by `archiveSection` (Archiver.ts lines 326-335)
on the destination document for `archiveHeadingUnderCursor`: the moved
section sub-tree is re-levelled to one below the archive section's level and
appended as the archive section's last child. -/
def archiveSectionEdit (st : Settings) (moved : Section) (tree : Section) : Section :=
  updateArchiveSection st tree
    (fun arch => arch.appendChild (Section.recalculateTokenLevels (arch.tokenLevel + 1) moved))

/-! ### Lemmas about first-occurrence replacement (`completeTask`) -/

theorem asString_toList (s : String) : s.toList.asString = s := rfl

theorem replaceFirstSub_of_no_occurrence (pat repl : List Char) (l : List Char)
    (h : ∀ i, pat.isPrefixOf (l.drop i) = false) :
    replaceFirstSub pat repl l = l := by
  induction l with
  | nil => rfl
  | cons c rest ih =>
    have h0 : pat.isPrefixOf (c :: rest) = false := h 0
    simp only [replaceFirstSub, h0, Bool.false_eq_true, if_false, List.cons.injEq, true_and]
    exact ih (fun i => h (i + 1))

theorem replaceFirstSub_of_first_occurrence (pat repl : List Char) (hpat : pat ≠ [])
    (l : List Char) (i : Nat)
    (hi : pat.isPrefixOf (l.drop i) = true)
    (hmin : ∀ j, j < i → pat.isPrefixOf (l.drop j) = false) :
    replaceFirstSub pat repl l = l.take i ++ repl ++ l.drop (i + pat.length) := by
  induction l generalizing i with
  | nil =>
    exfalso
    rw [List.drop_nil] at hi
    cases pat with
    | nil => exact hpat rfl
    | cons p ps => simp [List.isPrefixOf] at hi
  | cons c rest ih =>
    cases i with
    | zero =>
      simp only [List.drop] at hi
      simp [replaceFirstSub, hi, List.drop_succ_cons, Nat.zero_add]
    | succ k =>
      have h0 : pat.isPrefixOf (c :: rest) = false := hmin 0 (Nat.succ_pos k)
      have hi' : pat.isPrefixOf (rest.drop k) = true := by
        simpa [List.drop_succ_cons] using hi
      have hmin' : ∀ j, j < k → pat.isPrefixOf (rest.drop j) = false := by
        intro j hj
        have := hmin (j + 1) (Nat.succ_lt_succ hj)
        simpa [List.drop_succ_cons] using this
      simp only [replaceFirstSub, h0, Bool.false_eq_true, if_false]
      rw [ih k hi' hmin']
      simp [List.take_succ_cons, List.drop_succ_cons, Nat.succ_add]

/-- Claim C9: `archiveTaskUnderCursor` marks the removed item complete by
replacing only the first occurrence of the literal substring "[ ]" in its
text with "[x]"; a task whose text contains no "[ ]" is left unchanged, and
in either case the task is routed through the default rule. -/
theorem archiveTaskUnderCursor_completes_first_checkbox_and_uses_default_rule
    (st : Settings) (t : Block) :
    (archiveTaskUnderCursorTask st t).rule = getDefaultRule st ∧
    ((∀ i, ("[ ]".toList.isPrefixOf (t.text.toList.drop i)) = false) →
      (archiveTaskUnderCursorTask st t).task.text = t.text) ∧
    (∀ i, ("[ ]".toList.isPrefixOf (t.text.toList.drop i)) = true →
      (∀ j, j < i → ("[ ]".toList.isPrefixOf (t.text.toList.drop j)) = false) →
      (archiveTaskUnderCursorTask st t).task.text
        = (t.text.toList.take i ++ "[x]".toList ++ t.text.toList.drop (i + 3)).asString) := by
  refine ⟨rfl, ?_, ?_⟩
  · intro h
    show completeTask t.text = t.text
    unfold completeTask
    rw [replaceFirstSub_of_no_occurrence _ _ _ h, asString_toList]
  · intro i hi hmin
    show completeTask t.text
      = (t.text.toList.take i ++ "[x]".toList ++ t.text.toList.drop (i + 3)).asString
    unfold completeTask
    rw [replaceFirstSub_of_first_occurrence _ _ (by decide) _ i hi hmin]
    have hlen : "[ ]".toList.length = 3 := by decide
    rw [hlen]

/-- Witness for C9 at a concrete task: in "ab[ ]cd[ ]" only the first
"[ ]" (at index 2) is replaced. -/
theorem archiveTaskUnderCursor_completes_first_checkbox_witness :
    (archiveTaskUnderCursorTask
        { rules := [], archiveToSeparateFile := false, defaultArchiveFileName := "arc",
          additionalMetadataDateFormat := "d", dateFormat := "d", archiveHeading := "Archive",
          archiveHeadingDepth := 1, archiveUnderHeading := true,
          addNewlinesAroundHeadings := false }
        (Block.mk "ab[ ]cd[ ]" [])).task.text = "ab[x]cd[ ]" := by
  have h :=
    (archiveTaskUnderCursor_completes_first_checkbox_and_uses_default_rule
        { rules := [], archiveToSeparateFile := false, defaultArchiveFileName := "arc",
          additionalMetadataDateFormat := "d", dateFormat := "d", archiveHeading := "Archive",
          archiveHeadingDepth := 1, archiveUnderHeading := true,
          addNewlinesAroundHeadings := false }
        (Block.mk "ab[ ]cd[ ]" [])).2.2 2 (by decide) (by decide)
  exact h.trans (by decide)

/-! ### Rule selection (claim C4) -/

/-- Claim C4: for an extracted task with a parseable status marker, the
assigned rule is the first configured rule whose status set contains the
marker, and the default rule derived from global settings when none does. -/
theorem ruleSelection_first_matching_or_default (st : Settings) (text : String) (c : Char)
    (h : scanTaskStatus text.toList = some c) :
    assignRule st text =
      .ok ((st.rules.find? (fun rl => rl.statuses.toList.contains c)).getD (getDefaultRule st)) ∧
    ((∃ r, st.rules.find? (fun rl => rl.statuses.toList.contains c) = some r ∧
        r.statuses.toList.contains c = true ∧
        ∃ i : Fin st.rules.length, st.rules.get i = r ∧
          ∀ j : Fin st.rules.length, j.val < i.val →
            (st.rules.get j).statuses.toList.contains c = false)
     ∨ ((∀ r ∈ st.rules, r.statuses.toList.contains c = false) ∧
        (st.rules.find? (fun rl => rl.statuses.toList.contains c)).getD (getDefaultRule st)
          = getDefaultRule st)) := by
  constructor
  · cases hr : st.rules with
    | nil => simp [assignRule, hr]
    | cons r rs =>
      have h' : scanTaskStatus text.data = some c := h
      simp [assignRule, hr, h']
  · cases hf : st.rules.find? (fun rl => rl.statuses.toList.contains c) with
    | none =>
      right
      refine ⟨?_, rfl⟩
      intro r hr
      have := List.find?_eq_none.mp hf r hr
      simpa using this
    | some r =>
      left
      refine ⟨r, rfl, ?_, ?_⟩
      · have hp := List.find?_some hf
        simpa using hp
      · obtain ⟨-, i, hilt, hget, hbefore⟩ := List.find?_eq_some_iff_getElem.mp hf
        refine ⟨⟨i, hilt⟩, by simpa [List.get_eq_getElem] using hget, ?_⟩
        intro j hj
        have := hbefore j.val hj
        simpa [List.get_eq_getElem] using this

/-- Witness for C4: with two configured rules both containing the marker
"x", the task "- [x] a" is routed to the first rule. -/
theorem ruleSelection_first_matching_witness :
    assignRule
      { rules :=
          [{ statuses := "x>", archiveToSeparateFile := true,
             defaultArchiveFileName := "one", dateFormat := "d" },
           { statuses := "x", archiveToSeparateFile := true,
             defaultArchiveFileName := "two", dateFormat := "d" }],
        archiveToSeparateFile := false, defaultArchiveFileName := "arc",
        additionalMetadataDateFormat := "d", dateFormat := "d", archiveHeading := "Archive",
        archiveHeadingDepth := 1, archiveUnderHeading := true,
        addNewlinesAroundHeadings := false }
      "- [x] a"
      = .ok { statuses := "x>", archiveToSeparateFile := true,
              defaultArchiveFileName := "one", dateFormat := "d" } := by
  have h :=
    (ruleSelection_first_matching_or_default
      { rules :=
          [{ statuses := "x>", archiveToSeparateFile := true,
             defaultArchiveFileName := "one", dateFormat := "d" },
           { statuses := "x", archiveToSeparateFile := true,
             defaultArchiveFileName := "two", dateFormat := "d" }],
        archiveToSeparateFile := false, defaultArchiveFileName := "arc",
        additionalMetadataDateFormat := "d", dateFormat := "d", archiveHeading := "Archive",
        archiveHeadingDepth := 1, archiveUnderHeading := true,
        addNewlinesAroundHeadings := false }
      "- [x] a" 'x' (by decide)).1
  rw [h]
  rfl

/-! ### Destination routing through the "current-file" sentinel (claim C10) -/

/-- Claim C10: the in-file destination is encoded by the sentinel string
"current-file": a rule with `archiveToSeparateFile` false resolves to
exactly "current-file" and its tasks go to the active file; a separate-file
rule whose template resolves to the literal "current-file" is routed to the
active file as well, not to a disk file "current-file.md", and its tasks
land in the same group as in-file tasks. -/
theorem currentFile_sentinel_routes_to_active_file (resolve : String → String → String) :
    (∀ r : Rule, r.archiveToSeparateFile = false →
        resolvedArchivePath resolve r = "current-file") ∧
    destinationFor "current-file" = Dest.active ∧
    (∀ r : Rule, r.archiveToSeparateFile = true →
        resolve r.defaultArchiveFileName r.dateFormat = "current-file" →
        destinationFor (resolvedArchivePath resolve r) = Dest.active ∧
        destinationFor (resolvedArchivePath resolve r) ≠ Dest.disk "current-file.md") ∧
    (∀ (t1 t2 : Block) (r1 r2 : Rule),
        r1.archiveToSeparateFile = false → r2.archiveToSeparateFile = true →
        resolve r2.defaultArchiveFileName r2.dateFormat = "current-file" →
        groupByPath [(resolvedArchivePath resolve r1, t1), (resolvedArchivePath resolve r2, t2)]
          = [("current-file", [t1, t2])]) := by
  refine ⟨?_, ?_, ?_, ?_⟩
  · intro r hr
    simp [resolvedArchivePath, hr]
  · simp [destinationFor]
  · intro r hr hres
    simp [resolvedArchivePath, hr, hres, destinationFor]
  · intro t1 t2 r1 r2 h1 h2 hres
    simp [resolvedArchivePath, h1, h2, hres, groupByPath, addToGroups]

/-- Witness for C10: a concrete separate-file rule resolving to
"current-file" is grouped together with a concrete in-file task. -/
theorem currentFile_sentinel_witness :
    groupByPath
      [(resolvedArchivePath (fun a _ => a)
          { statuses := "", archiveToSeparateFile := false,
            defaultArchiveFileName := "arc", dateFormat := "d" },
        Block.mk "- [x] a" []),
       (resolvedArchivePath (fun a _ => a)
          { statuses := "x", archiveToSeparateFile := true,
            defaultArchiveFileName := "current-file", dateFormat := "d" },
        Block.mk "- [x] b" [])]
      = [("current-file", [Block.mk "- [x] a" [], Block.mk "- [x] b" []])] :=
  (currentFile_sentinel_routes_to_active_file (fun a _ => a)).2.2.2
    (Block.mk "- [x] a" []) (Block.mk "- [x] b" [])
    { statuses := "", archiveToSeparateFile := false,
      defaultArchiveFileName := "arc", dateFormat := "d" }
    { statuses := "x", archiveToSeparateFile := true,
      defaultArchiveFileName := "current-file", dateFormat := "d" }
    rfl rfl rfl

/-! ### deleteMatching is shallow-only (claim C3) -/

/-- Counterexample to claim C3 as stated: `deleteTasksInActiveFile` takes no
extraction mode and always extracts shallowly, so under deep mode its
extraction differs from `archiveMatching`'s.  On a document whose only
matching block is nested under a non-matching parent, deep extraction
extracts one block while the delete operation extracts none and reports
"No tasks to delete" instead of "Deleted 1 tasks". -/
theorem deleteMatching_not_deep_counterexample :
    (deleteTasksInActiveFile
        { rules := [], archiveToSeparateFile := false, defaultArchiveFileName := "arc",
          additionalMetadataDateFormat := "d", dateFormat := "d", archiveHeading := "Archive",
          archiveHeadingDepth := 1, archiveUnderHeading := true,
          addNewlinesAroundHeadings := false }
        (fun b => b.text == "- [x] child")
        { active := .mk "" 0 (Block.mk ""
            [Block.mk "- [ ] parent" [Block.mk "- [x] child" []]]) [],
          disk := [] }).2 = "No tasks to delete" ∧
    (extractTasksFromActiveFile
        { rules := [], archiveToSeparateFile := false, defaultArchiveFileName := "arc",
          additionalMetadataDateFormat := "d", dateFormat := "d", archiveHeading := "Archive",
          archiveHeadingDepth := 1, archiveUnderHeading := true,
          addNewlinesAroundHeadings := false }
        (fun b => b.text == "- [x] child")
        deepExtractBlocks
        (.mk "" 0 (Block.mk ""
            [Block.mk "- [ ] parent" [Block.mk "- [x] child" []]]) [])).1
      = [Block.mk "- [x] child" []] :=
  ⟨rfl, rfl⟩

/-- Claim C3 as amended: `deleteTasksInActiveFile` has no extraction-mode
parameter and always performs the same shallow extraction as
`archiveMatching` under shallow mode; it persists the mutated source,
touches no destination document, and reports "Deleted N tasks" for N > 0
extracted blocks. -/
theorem deleteMatching_shallow_extraction_and_report (st : Settings) (bf : Block → Bool)
    (w : World) :
    ((deleteTasksInActiveFile st bf w).1.active
        = (extractTasksFromActiveFile st bf shallowExtractBlocks w.active).2) ∧
    ((deleteTasksInActiveFile st bf w).1.disk = w.disk) ∧
    ((extractTasksFromActiveFile st bf shallowExtractBlocks w.active).1.length = 0 →
        (deleteTasksInActiveFile st bf w).2 = "No tasks to delete") ∧
    (0 < (extractTasksFromActiveFile st bf shallowExtractBlocks w.active).1.length →
        (deleteTasksInActiveFile st bf w).2
          = "Deleted " ++
              toString (extractTasksFromActiveFile st bf shallowExtractBlocks w.active).1.length
              ++ " tasks") := by
  refine ⟨rfl, rfl, ?_, ?_⟩
  · intro h
    simp [deleteTasksInActiveFile, List.isEmpty_iff, List.length_eq_zero.mp h]
  · intro h
    have hne : ¬(extractTasksFromActiveFile st bf shallowExtractBlocks w.active).1 = [] := by
      intro hc
      rw [hc] at h
      exact Nat.lt_irrefl 0 h
    simp [deleteTasksInActiveFile, List.isEmpty_iff, hne]

/-- Witness for the amended C3: one matching top-level block is deleted and
reported as "Deleted 1 tasks". -/
theorem deleteMatching_shallow_witness :
    (deleteTasksInActiveFile
        { rules := [], archiveToSeparateFile := false, defaultArchiveFileName := "arc",
          additionalMetadataDateFormat := "d", dateFormat := "d", archiveHeading := "Archive",
          archiveHeadingDepth := 1, archiveUnderHeading := true,
          addNewlinesAroundHeadings := false }
        (fun b => b.text == "- [x] task B")
        { active := .mk "" 0 (Block.mk ""
            [Block.mk "- [ ] task A" [], Block.mk "- [x] task B" []]) [],
          disk := [] }).2 = "Deleted 1 tasks" := by
  have h :=
    (deleteMatching_shallow_extraction_and_report
        { rules := [], archiveToSeparateFile := false, defaultArchiveFileName := "arc",
          additionalMetadataDateFormat := "d", dateFormat := "d", archiveHeading := "Archive",
          archiveHeadingDepth := 1, archiveUnderHeading := true,
          addNewlinesAroundHeadings := false }
        (fun b => b.text == "- [x] task B")
        { active := .mk "" 0 (Block.mk ""
            [Block.mk "- [ ] task A" [], Block.mk "- [x] task B" []]) [],
          disk := [] }).2.2.2 (by decide)
  exact h.trans rfl

/-! ### Rule assignment can throw on a marker-less task (claim C1) -/

theorem mapM_loop_except_ok {α β : Type} (f : α → Except String β) (l : List α)
    (h : ∀ x ∈ l, ∃ b, f x = .ok b) :
    ∀ acc : List β, ∃ bs, List.mapM.loop f l acc = .ok bs := by
  induction l with
  | nil => intro acc; exact ⟨acc.reverse, rfl⟩
  | cons a as ih =>
    intro acc
    obtain ⟨b, hb⟩ := h a (List.mem_cons_self a as)
    obtain ⟨bs, hbs⟩ := ih (fun x hx => h x (List.mem_cons_of_mem a hx)) (b :: acc)
    refine ⟨bs, ?_⟩
    show f a >>= (fun b => List.mapM.loop f as (b :: acc)) = .ok bs
    rw [hb]
    exact hbs

theorem mapM_loop_except_error {α β : Type} (f : α → Except String β) (l : List α)
    (x : α) (hx : x ∈ l) (e : String) (hfx : f x = .error e) :
    ∀ acc : List β, ∃ e2, List.mapM.loop f l acc = .error e2 := by
  induction l with
  | nil => cases hx
  | cons a as ih =>
    intro acc
    cases hfa : f a with
    | error e2 =>
      refine ⟨e2, ?_⟩
      show f a >>= (fun b => List.mapM.loop f as (b :: acc)) = .error e2
      rw [hfa]
      rfl
    | ok b =>
      cases List.mem_cons.mp hx with
      | inl hxa =>
        exfalso
        rw [hxa, hfa] at hfx
        cases hfx
      | inr hxas =>
        obtain ⟨e2, he2⟩ := ih hxas (b :: acc)
        refine ⟨e2, ?_⟩
        show f a >>= (fun b => List.mapM.loop f as (b :: acc)) = .error e2
        rw [hfa]
        exact he2

/-- Counterexample to claim C1 as stated: with one configured rule, a
batched archive operation over a document whose extracted block has no
"[<char>]" status marker does fail (the status-marker match is `null` and
destructuring it throws a TypeError), instead of falling back to the
default rule. -/
theorem markerlessTask_with_configured_rule_throws :
    extractAndArchiveTasksInActiveFile
      { replaceText := id, appendMetadata := id, resolvePlaceholders := fun a _ => a,
        mergeNewBlocksWithDateTree := fun b ts => Block.mk b.text (b.children ++ ts) }
      { rules := [{ statuses := "x", archiveToSeparateFile := false,
                    defaultArchiveFileName := "arc", dateFormat := "d" }],
        archiveToSeparateFile := false, defaultArchiveFileName := "arc",
        additionalMetadataDateFormat := "d", dateFormat := "d", archiveHeading := "Archive",
        archiveHeadingDepth := 1, archiveUnderHeading := true,
        addNewlinesAroundHeadings := false }
      (fun b => b.text == "- task A")
      shallowExtractBlocks
      { active := .mk "" 0 (Block.mk "" [Block.mk "- task A" []]) [], disk := [] }
      = .error "TypeError: cannot destructure null task status match" := rfl

/-- Claim C1 as amended: an extracted task block without a parseable status
marker falls back to the default rule only when no rules are configured (the
rule lookup then never reads the status); as soon as at least one rule is
configured, the batched archive operation fails on such a block with a
TypeError instead of applying the default rule. -/
theorem markerlessTask_default_only_without_rules (cb : Collab) (st : Settings)
    (bf : Block → Bool) (ex : BlockExtractor) (w : World) :
    (st.rules = [] →
      (∀ text, assignRule st text = .ok (getDefaultRule st)) ∧
      ∃ w2 msg, extractAndArchiveTasksInActiveFile cb st bf ex w = .ok (w2, msg)) ∧
    (st.rules ≠ [] →
      ∀ t ∈ (extractTasksFromActiveFile st bf ex w.active).1, getTaskStatus t = none →
        ∃ e, extractAndArchiveTasksInActiveFile cb st bf ex w = .error e) := by
  constructor
  · intro hrules
    have hassign : ∀ text, assignRule st text = .ok (getDefaultRule st) := by
      intro text
      unfold assignRule
      rw [hrules]
    refine ⟨hassign, ?_⟩
    have hall : ∀ t ∈ (extractTasksFromActiveFile st bf ex w.active).1,
        ∃ b, (assignRule st t.text).map (fun r => BlockWithRule.mk t r) = .ok b := by
      intro t _
      exact ⟨BlockWithRule.mk t (getDefaultRule st), by rw [hassign t.text]; rfl⟩
    obtain ⟨tws, htws⟩ := mapM_loop_except_ok _ _ hall []
    refine ⟨archiveTasks cb st tws { w with active := (extractTasksFromActiveFile st bf ex w.active).2 },
            if (extractTasksFromActiveFile st bf ex w.active).1.isEmpty then "No tasks to archive"
            else "Archived " ++ toString (extractTasksFromActiveFile st bf ex w.active).1.length ++ " tasks", ?_⟩
    unfold extractAndArchiveTasksInActiveFile
    show (match (extractTasksFromActiveFile st bf ex w.active).1.mapM
        (fun t => (assignRule st t.text).map (fun r => BlockWithRule.mk t r)) with
      | .error e => Except.error e
      | .ok tws => _) = _
    rw [show (extractTasksFromActiveFile st bf ex w.active).1.mapM
        (fun t => (assignRule st t.text).map (fun r => BlockWithRule.mk t r)) = .ok tws from htws]
  · intro hrules t ht hstatus
    have herr : (assignRule st t.text).map (fun r => BlockWithRule.mk t r)
        = .error "TypeError: cannot destructure null task status match" := by
      unfold assignRule
      cases hr : st.rules with
      | nil => exact absurd hr hrules
      | cons r rs =>
        have : scanTaskStatus t.text.toList = none := hstatus
        rw [this]
        rfl
    obtain ⟨e2, he2⟩ :=
      mapM_loop_except_error (fun t => (assignRule st t.text).map (fun r => BlockWithRule.mk t r))
        (extractTasksFromActiveFile st bf ex w.active).1 t ht _ herr []
    refine ⟨e2, ?_⟩
    unfold extractAndArchiveTasksInActiveFile
    show (match (extractTasksFromActiveFile st bf ex w.active).1.mapM
        (fun t => (assignRule st t.text).map (fun r => BlockWithRule.mk t r)) with
      | .error e => Except.error e
      | .ok tws => _) = _
    rw [show (extractTasksFromActiveFile st bf ex w.active).1.mapM
        (fun t => (assignRule st t.text).map (fun r => BlockWithRule.mk t r)) = .error e2 from he2]

/-- Witness for the amended C1: with no configured rules the same
marker-less document archives successfully via the default rule. -/
theorem markerlessTask_default_only_without_rules_witness :
    (∀ text, assignRule
        { rules := [], archiveToSeparateFile := false, defaultArchiveFileName := "arc",
          additionalMetadataDateFormat := "d", dateFormat := "d", archiveHeading := "Archive",
          archiveHeadingDepth := 1, archiveUnderHeading := true,
          addNewlinesAroundHeadings := false } text
      = .ok (getDefaultRule
        { rules := [], archiveToSeparateFile := false, defaultArchiveFileName := "arc",
          additionalMetadataDateFormat := "d", dateFormat := "d", archiveHeading := "Archive",
          archiveHeadingDepth := 1, archiveUnderHeading := true,
          addNewlinesAroundHeadings := false })) ∧
    ∃ w2 msg, extractAndArchiveTasksInActiveFile
      { replaceText := id, appendMetadata := id, resolvePlaceholders := fun a _ => a,
        mergeNewBlocksWithDateTree := fun b ts => Block.mk b.text (b.children ++ ts) }
      { rules := [], archiveToSeparateFile := false, defaultArchiveFileName := "arc",
        additionalMetadataDateFormat := "d", dateFormat := "d", archiveHeading := "Archive",
        archiveHeadingDepth := 1, archiveUnderHeading := true,
        addNewlinesAroundHeadings := false }
      (fun b => b.text == "- task A")
      shallowExtractBlocks
      { active := .mk "" 0 (Block.mk "" [Block.mk "- task A" []]) [], disk := [] }
      = .ok (w2, msg) :=
  (markerlessTask_default_only_without_rules
      { replaceText := id, appendMetadata := id, resolvePlaceholders := fun a _ => a,
        mergeNewBlocksWithDateTree := fun b ts => Block.mk b.text (b.children ++ ts) }
      { rules := [], archiveToSeparateFile := false, defaultArchiveFileName := "arc",
        additionalMetadataDateFormat := "d", dateFormat := "d", archiveHeading := "Archive",
        archiveHeadingDepth := 1, archiveUnderHeading := true,
        addNewlinesAroundHeadings := false }
      (fun b => b.text == "- task A")
      shallowExtractBlocks
      { active := .mk "" 0 (Block.mk "" [Block.mk "- task A" []]) [], disk := [] }).1 rfl

/-! ### The report string of the batched archive operation (claim C2) -/

mutual
/-- A block together with all blocks nested below it, in document order. -/
def Block.selfWithDescendants : Block → List Block
  | .mk t cs => .mk t cs :: blocksWithDescendants cs

/-- All blocks of a sibling list, each with its descendants. -/
def blocksWithDescendants : List Block → List Block
  | [] => []
  | b :: bs => b.selfWithDescendants ++ blocksWithDescendants bs
end

mutual
/-- Every block the extractors can ever test in a section tree: the blocks
under each section's block content, at every depth, over all sections. -/
def Section.allTaskBlocks : Section → List Block
  | .mk _ _ b cs => blocksWithDescendants b.children ++ allTaskBlocksList cs

/-- All testable blocks of a sibling section list. -/
def allTaskBlocksList : List Section → List Block
  | [] => []
  | c :: cs => c.allTaskBlocks ++ allTaskBlocksList cs
end

theorem selfWithDescendants_eq (b : Block) :
    b.selfWithDescendants = b :: blocksWithDescendants b.children := by
  cases b
  rfl

theorem shallowExtract_of_no_match (bf : Block → Bool) (b : Block)
    (h : ∀ x ∈ blocksWithDescendants b.children, bf x = false) :
    shallowExtractBlocks bf b = ([], b) := by
  cases b with
  | mk t cs =>
    have hc : ∀ x ∈ cs, bf x = false := by
      intro x hx
      refine h x ?_
      have : x ∈ x.selfWithDescendants := by
        rw [selfWithDescendants_eq]
        exact List.mem_cons_self x _
      clear h
      induction cs with
      | nil => cases hx
      | cons c cs2 ih =>
        show x ∈ c.selfWithDescendants ++ blocksWithDescendants cs2
        cases List.mem_cons.mp hx with
        | inl hxc => exact List.mem_append_left _ (hxc ▸ this)
        | inr hxs => exact List.mem_append_right _ (ih hxs)
    show (cs.filter bf, Block.mk t (cs.filter (fun b => !bf b))) = ([], Block.mk t cs)
    rw [List.filter_eq_nil_iff.mpr (fun a ha => by rw [hc a ha]; exact Bool.false_ne_true),
        List.filter_eq_self.mpr (fun a ha => by rw [hc a ha]; rfl)]

mutual
theorem deepExtract_of_no_match (bf : Block → Bool) (b : Block)
    (h : ∀ x ∈ blocksWithDescendants b.children, bf x = false) :
    deepExtractBlocks bf b = ([], b) := by
  cases b with
  | mk t cs =>
    have := deepExtractList_of_no_match bf cs h
    simp [deepExtractBlocks, this]

theorem deepExtractList_of_no_match (bf : Block → Bool) (bs : List Block)
    (h : ∀ x ∈ blocksWithDescendants bs, bf x = false) :
    deepExtractList bf bs = ([], bs) := by
  cases bs with
  | nil => rfl
  | cons b bs2 =>
    have hmemb : ∀ x ∈ b.selfWithDescendants, bf x = false := by
      intro x hx
      exact h x (List.mem_append_left _ hx)
    have hb : bf b = false := by
      refine hmemb b ?_
      rw [selfWithDescendants_eq]
      exact List.mem_cons_self b _
    have hsub : ∀ x ∈ blocksWithDescendants b.children, bf x = false := by
      intro x hx
      refine hmemb x ?_
      rw [selfWithDescendants_eq]
      exact List.mem_cons_of_mem b hx
    have hrest : ∀ x ∈ blocksWithDescendants bs2, bf x = false := by
      intro x hx
      exact h x (List.mem_append_right _ hx)
    have h1 := deepExtract_of_no_match bf b hsub
    have h2 := deepExtractList_of_no_match bf bs2 hrest
    simp [deepExtractList, hb, h1, h2]
end

mutual
theorem extractRec_of_no_match (tf : TreeFilter) (extractor : BlockExtractor)
    (hex : ∀ b : Block, (∀ x ∈ blocksWithDescendants b.children, tf.blockFilter x = false) →
        extractor tf.blockFilter b = ([], b))
    (s : Section) (h : ∀ x ∈ s.allTaskBlocks, tf.blockFilter x = false) :
    extractBlocksRecursively tf extractor s = ([], s) := by
  cases s with
  | mk t l b cs =>
    have hb : extractor tf.blockFilter b = ([], b) := by
      refine hex b ?_
      intro x hx
      exact h x (List.mem_append_left _ hx)
    have hcs : extractSectionList tf extractor cs = ([], cs) :=
      extractSectionList_of_no_match tf extractor hex cs
        (fun x hx => h x (List.mem_append_right _ hx))
    simp [extractBlocksRecursively, hb, hcs]

theorem extractSectionList_of_no_match (tf : TreeFilter) (extractor : BlockExtractor)
    (hex : ∀ b : Block, (∀ x ∈ blocksWithDescendants b.children, tf.blockFilter x = false) →
        extractor tf.blockFilter b = ([], b))
    (cs : List Section) (h : ∀ x ∈ allTaskBlocksList cs, tf.blockFilter x = false) :
    extractSectionList tf extractor cs = ([], cs) := by
  cases cs with
  | nil => rfl
  | cons c cs2 =>
    have hc : extractBlocksRecursively tf extractor c = ([], c) :=
      extractRec_of_no_match tf extractor hex c
        (fun x hx => h x (List.mem_append_left _ hx))
    have hcs : extractSectionList tf extractor cs2 = ([], cs2) :=
      extractSectionList_of_no_match tf extractor hex cs2
        (fun x hx => h x (List.mem_append_right _ hx))
    by_cases hfilt : tf.sectionFilter c = true
    · simp [extractSectionList, hfilt, hc, hcs]
    · simp [extractSectionList, hfilt, hcs]
end

theorem extractTasks_of_no_match (st : Settings) (bf : Block → Bool) (ex : BlockExtractor)
    (hex : ex = shallowExtractBlocks ∨ ex = deepExtractBlocks)
    (tree : Section) (h : ∀ x ∈ tree.allTaskBlocks, bf x = false) :
    extractTasksFromActiveFile st bf ex tree = ([], tree) := by
  refine extractRec_of_no_match _ ex ?_ tree h
  intro b hb
  cases hex with
  | inl hsh => rw [hsh]; exact shallowExtract_of_no_match bf b hb
  | inr hdp => rw [hdp]; exact deepExtract_of_no_match bf b hb

theorem extractAndArchive_unfold (cb : Collab) (st : Settings) (bf : Block → Bool)
    (ex : BlockExtractor) (w : World) :
    extractAndArchiveTasksInActiveFile cb st bf ex w =
      match (extractTasksFromActiveFile st bf ex w.active).1.mapM
          (fun t => (assignRule st t.text).map (fun r => BlockWithRule.mk t r)) with
      | .error e => .error e
      | .ok tws =>
        .ok (archiveTasks cb st tws
              { active := (extractTasksFromActiveFile st bf ex w.active).2, disk := w.disk },
            if (extractTasksFromActiveFile st bf ex w.active).1.isEmpty
            then "No tasks to archive"
            else "Archived " ++ toString (extractTasksFromActiveFile st bf ex w.active).1.length
                 ++ " tasks") := rfl

/-- Claim C2: the batched archive operation reports "No tasks to archive"
when zero blocks match the archiving predicate (and then changes nothing),
and "Archived N tasks" with N the number of extracted blocks when N > 0. -/
theorem batchedArchive_report_string (cb : Collab) (st : Settings) (bf : Block → Bool)
    (ex : BlockExtractor) (w : World)
    (hex : ex = shallowExtractBlocks ∨ ex = deepExtractBlocks) :
    ((∀ x ∈ w.active.allTaskBlocks, bf x = false) →
      extractAndArchiveTasksInActiveFile cb st bf ex w = .ok (w, "No tasks to archive")) ∧
    (∀ w2 msg, extractAndArchiveTasksInActiveFile cb st bf ex w = .ok (w2, msg) →
      ((extractTasksFromActiveFile st bf ex w.active).1.length = 0 →
          msg = "No tasks to archive") ∧
      (0 < (extractTasksFromActiveFile st bf ex w.active).1.length →
          msg = "Archived " ++ toString (extractTasksFromActiveFile st bf ex w.active).1.length
                ++ " tasks")) := by
  constructor
  · intro h
    have hextract := extractTasks_of_no_match st bf ex hex w.active h
    unfold extractAndArchiveTasksInActiveFile
    rw [hextract]
    rfl
  · intro w2 msg hok
    rw [extractAndArchive_unfold] at hok
    cases hm : (extractTasksFromActiveFile st bf ex w.active).1.mapM
        (fun t => (assignRule st t.text).map (fun r => BlockWithRule.mk t r)) with
    | error e => rw [hm] at hok; cases hok
    | ok tws =>
      rw [hm] at hok
      have hmsg : msg = (if (extractTasksFromActiveFile st bf ex w.active).1.isEmpty
          then "No tasks to archive"
          else "Archived " ++ toString (extractTasksFromActiveFile st bf ex w.active).1.length
               ++ " tasks") := by
        cases hok
        rfl
      constructor
      · intro hlen
        rw [hmsg, if_pos]
        rw [List.isEmpty_iff]
        exact List.length_eq_zero.mp hlen
      · intro hlen
        rw [hmsg, if_neg]
        rw [List.isEmpty_iff]
        intro hc
        rw [hc] at hlen
        exact Nat.lt_irrefl 0 hlen

/-- Witness for C2: on a document with no matching block, the operation
leaves the world unchanged and reports "No tasks to archive". -/
theorem batchedArchive_report_string_witness :
    extractAndArchiveTasksInActiveFile
      { replaceText := id, appendMetadata := id, resolvePlaceholders := fun a _ => a,
        mergeNewBlocksWithDateTree := fun b ts => Block.mk b.text (b.children ++ ts) }
      { rules := [], archiveToSeparateFile := false, defaultArchiveFileName := "arc",
        additionalMetadataDateFormat := "d", dateFormat := "d", archiveHeading := "Archive",
        archiveHeadingDepth := 1, archiveUnderHeading := true,
        addNewlinesAroundHeadings := false }
      (fun b => b.text == "- [x] task B")
      shallowExtractBlocks
      { active := .mk "" 0 (Block.mk "" [Block.mk "- [ ] task A" []]) [], disk := [] }
      = .ok ({ active := .mk "" 0 (Block.mk "" [Block.mk "- [ ] task A" []]) [], disk := [] },
             "No tasks to archive") :=
  (batchedArchive_report_string
      { replaceText := id, appendMetadata := id, resolvePlaceholders := fun a _ => a,
        mergeNewBlocksWithDateTree := fun b ts => Block.mk b.text (b.children ++ ts) }
      { rules := [], archiveToSeparateFile := false, defaultArchiveFileName := "arc",
        additionalMetadataDateFormat := "d", dateFormat := "d", archiveHeading := "Archive",
        archiveHeadingDepth := 1, archiveUnderHeading := true,
        addNewlinesAroundHeadings := false }
      (fun b => b.text == "- [x] task B")
      shallowExtractBlocks
      { active := .mk "" 0 (Block.mk "" [Block.mk "- [ ] task A" []]) [], disk := [] }
      (Or.inl rfl)).1 (by decide)

/-! ### Finding and creating the archive section (claims C5, C6) -/

theorem isPrefixOf_rfl (l : List Char) : l.isPrefixOf l = true := by
  induction l with
  | nil => rfl
  | cons c rest ih => simp [List.isPrefixOf, ih]

theorem containsSub_self (l : List Char) : containsSub l l = true := by
  cases l with
  | nil => rfl
  | cons c rest => simp [containsSub, isPrefixOf_rfl]

theorem containsSub_cons (pat : List Char) (c : Char) (l : List Char)
    (h : containsSub pat l = true) : containsSub pat (c :: l) = true := by
  simp [containsSub, h]

theorem headingPatternTest_space_self (h : String) :
    headingPatternTest h (" " ++ h) = true := by
  unfold headingPatternTest
  have hl : (" " ++ h).toList = ' ' :: h.toList := by
    show (" " ++ h).data = ' ' :: h.data
    rw [String.data_append]
    rfl
  rw [hl]
  exact containsSub_cons _ _ _ (containsSub_self h.toList)

theorem Section.text_mk (t : String) (l : Int) (b : Block) (cs : List Section) :
    (Section.mk t l b cs).text = t := rfl

theorem appendChild_children (s c : Section) :
    (s.appendChild c).children = s.children ++ [c] := by
  cases s
  rfl

theorem sectionTextsList_append (cs ds : List Section) :
    sectionTextsList (cs ++ ds) = sectionTextsList cs ++ sectionTextsList ds := by
  induction cs with
  | nil => rfl
  | cons c cs2 ih => simp [sectionTextsList, ih]

theorem sectionTexts_appendChild (s c : Section) :
    (s.appendChild c).sectionTexts = s.text :: (sectionTextsList s.children ++ c.sectionTexts) := by
  cases s with
  | mk t l b cs =>
    show (Section.mk t l b (cs ++ [c])).sectionTexts = _
    simp only [Section.sectionTexts, sectionTextsList_append, sectionTextsList,
      List.append_nil]
    rfl

mutual
theorem sectionTexts_addNewlines (s : Section) :
    (addNewlinesToSection s).sectionTexts = s.sectionTexts := by
  cases s with
  | mk t l b cs =>
    cases cs with
    | nil => rfl
    | cons c cs2 =>
      show (Section.mk t l b (addNewlinesToLast (c :: cs2))).sectionTexts = _
      simp [Section.sectionTexts, sectionTextsList_addNewlinesLast (c :: cs2)]

theorem sectionTextsList_addNewlinesLast (cs : List Section) :
    sectionTextsList (addNewlinesToLast cs) = sectionTextsList cs := by
  cases cs with
  | nil => rfl
  | cons c cs2 =>
    cases cs2 with
    | nil =>
      show sectionTextsList [addNewlinesToSection c] = sectionTextsList [c]
      simp [sectionTextsList, sectionTexts_addNewlines c]
    | cons c2 cs3 =>
      show sectionTextsList (c :: addNewlinesToLast (c2 :: cs3)) = _
      simp [sectionTextsList, sectionTextsList_addNewlinesLast (c2 :: cs3)]
end

mutual
theorem findSec_none_iff (q : String → Bool) (s : Section) :
    findSectionRecursively (fun sec => q sec.text) s = none
      ↔ ∀ t ∈ s.sectionTexts, q t = false := by
  cases s with
  | mk t l b cs =>
    show (if q t then _ else findSectionInList _ cs) = none ↔ _
    by_cases hq : q t = true
    · simp [hq, Section.sectionTexts]
    · have hq' : q t = false := by
        cases hqt : q t
        · rfl
        · exact absurd hqt hq
      simp only [hq', Bool.false_eq_true, if_false, Section.sectionTexts, List.mem_cons]
      rw [findSecList_none_iff q cs]
      constructor
      · intro hall t2 ht2
        cases ht2 with
        | inl he => rw [he]; exact hq'
        | inr hm => exact hall t2 hm
      · intro hall t2 ht2
        exact hall t2 (Or.inr ht2)

theorem findSecList_none_iff (q : String → Bool) (cs : List Section) :
    findSectionInList (fun sec => q sec.text) cs = none
      ↔ ∀ t ∈ sectionTextsList cs, q t = false := by
  cases cs with
  | nil => simp [findSectionInList, sectionTextsList]
  | cons c cs2 =>
    show (match findSectionRecursively _ c with
          | some s => some s
          | none => findSectionInList _ cs2) = none ↔ _
    cases hf : findSectionRecursively (fun sec => q sec.text) c with
    | some s =>
      simp only [sectionTextsList]
      constructor
      · intro hc
        cases hc
      · intro hall
        exfalso
        have := (findSec_none_iff q c).mpr (fun t ht => hall t (List.mem_append_left _ ht))
        rw [this] at hf
        cases hf
    | none =>
      have hc := (findSec_none_iff q c).mp hf
      simp only [sectionTextsList]
      rw [findSecList_none_iff q cs2]
      constructor
      · intro hall t2 ht2
        cases List.mem_append.mp ht2 with
        | inl hm => exact hc t2 hm
        | inr hm => exact hall t2 hm
      · intro hall t2 ht2
        exact hall t2 (List.mem_append_right _ ht2)
end

mutual
theorem findSec_some_pred (p : Section → Bool) (s r : Section)
    (h : findSectionRecursively p s = some r) : p r = true := by
  cases s with
  | mk t l b cs =>
    by_cases hp : p (.mk t l b cs) = true
    · have : findSectionRecursively p (.mk t l b cs) = some (.mk t l b cs) := by
        show (if p (.mk t l b cs) then _ else _) = _
        rw [hp]
        rfl
      rw [this] at h
      cases h
      exact hp
    · have hp' : p (.mk t l b cs) = false := by
        cases hpt : p (.mk t l b cs)
        · rfl
        · exact absurd hpt hp
      have : findSectionRecursively p (.mk t l b cs) = findSectionInList p cs := by
        show (if p (.mk t l b cs) then _ else _) = _
        rw [hp']
        rfl
      rw [this] at h
      exact findSecList_some_pred p cs r h

theorem findSecList_some_pred (p : Section → Bool) (cs : List Section) (r : Section)
    (h : findSectionInList p cs = some r) : p r = true := by
  cases cs with
  | nil => cases h
  | cons c cs2 =>
    revert h
    show (match findSectionRecursively p c with
          | some s => some s
          | none => findSectionInList p cs2) = some r → p r = true
    cases hf : findSectionRecursively p c with
    | some s =>
      intro h
      cases h
      exact findSec_some_pred p c r hf
    | none =>
      intro h
      exact findSecList_some_pred p cs2 r h
end

/-- Claim C5: locating the archive section in a destination tree: the
document root itself when archiving to a separate file with no wrapping
heading; otherwise the first section (recursive search) whose heading
matches the archive-heading pattern, reused with the tree unchanged;
otherwise a new section with the configured heading text and configured
level, appended as the last child of the root, with blank-line separators
inserted exactly when that setting is enabled. -/
theorem archiveSection_found_or_created (st : Settings) (root : Section) :
    (st.archiveToSeparateFile = true → st.archiveUnderHeading = false →
      getArchiveSectionFromRoot st root = (root, root)) ∧
    ((st.archiveToSeparateFile && !st.archiveUnderHeading) = false →
      (∀ s, findSectionRecursively (archivePred st) root = some s →
        getArchiveSectionFromRoot st root = (s, root) ∧ archivePred st s = true) ∧
      (findSectionRecursively (archivePred st) root = none →
        getArchiveSectionFromRoot st root
          = (buildArchiveSection st,
             (if st.addNewlinesAroundHeadings then addNewlinesToSection root
              else root).appendChild (buildArchiveSection st)) ∧
        (buildArchiveSection st).text = " " ++ st.archiveHeading ∧
        (buildArchiveSection st).tokenLevel = st.archiveHeadingDepth ∧
        ((getArchiveSectionFromRoot st root).2).children.getLast?
          = some (buildArchiveSection st))) := by
  constructor
  · intro h1 h2
    unfold getArchiveSectionFromRoot
    rw [h1, h2]
    rfl
  · intro hcond
    constructor
    · intro s hs
      unfold getArchiveSectionFromRoot
      rw [hcond, hs]
      exact ⟨rfl, findSec_some_pred _ _ _ hs⟩
    · intro hnone
      unfold getArchiveSectionFromRoot
      rw [hcond, hnone]
      refine ⟨rfl, rfl, rfl, ?_⟩
      show ((if st.addNewlinesAroundHeadings = true then addNewlinesToSection root
             else root).appendChild (buildArchiveSection st)).children.getLast?
        = some (buildArchiveSection st)
      rw [appendChild_children]
      exact List.getLast?_concat _

/-- Witness for C5 (creation branch): on a document with no archive
heading, a fresh " Archive" section at the configured depth is appended as
the last child of the root. -/
theorem archiveSection_found_or_created_witness :
    getArchiveSectionFromRoot
      { rules := [], archiveToSeparateFile := false, defaultArchiveFileName := "arc",
        additionalMetadataDateFormat := "d", dateFormat := "d", archiveHeading := "Archive",
        archiveHeadingDepth := 4, archiveUnderHeading := true,
        addNewlinesAroundHeadings := false }
      (.mk "" 0 RootBlock [.mk " Log" 1 (Block.mk "" [Block.mk "- [ ] task A" []]) []])
      = (.mk " Archive" 4 RootBlock [],
         .mk "" 0 RootBlock
           [.mk " Log" 1 (Block.mk "" [Block.mk "- [ ] task A" []]) [],
            .mk " Archive" 4 RootBlock []]) := by
  have h :=
    ((archiveSection_found_or_created
      { rules := [], archiveToSeparateFile := false, defaultArchiveFileName := "arc",
        additionalMetadataDateFormat := "d", dateFormat := "d", archiveHeading := "Archive",
        archiveHeadingDepth := 4, archiveUnderHeading := true,
        addNewlinesAroundHeadings := false }
      (.mk "" 0 RootBlock [.mk " Log" 1 (Block.mk "" [Block.mk "- [ ] task A" []]) []])).2
      rfl).2 rfl
  exact h.1.trans rfl

/-- Claim C6: archive-section creation is idempotent: the heading text
produced by `buildArchiveSection` is matched by the recognition pattern
built from the same configured template, so a second archive operation on
the resulting document finds and reuses the existing archive section
instead of appending another one (the located-or-created tree is a fixed
point). -/
theorem archiveSection_creation_idempotent (st : Settings) (root : Section) :
    headingPatternTest st.archiveHeading (buildArchiveSection st).text = true ∧
    (getArchiveSectionFromRoot st (getArchiveSectionFromRoot st root).2).2
      = (getArchiveSectionFromRoot st root).2 := by
  have hpat : headingPatternTest st.archiveHeading (buildArchiveSection st).text = true :=
    headingPatternTest_space_self st.archiveHeading
  refine ⟨hpat, ?_⟩
  by_cases hcond : (st.archiveToSeparateFile && !st.archiveUnderHeading) = true
  · unfold getArchiveSectionFromRoot
    rw [if_pos hcond, if_pos hcond]
  · have hcond' : (st.archiveToSeparateFile && !st.archiveUnderHeading) = false := by
      cases hb : (st.archiveToSeparateFile && !st.archiveUnderHeading)
      · rfl
      · exact absurd hb hcond
    cases hf : findSectionRecursively (archivePred st) root with
    | some s =>
      have h1 : (getArchiveSectionFromRoot st root).2 = root := by
        unfold getArchiveSectionFromRoot
        rw [hcond', hf]
        rfl
      rw [h1]
      unfold getArchiveSectionFromRoot
      rw [hcond', hf]
      rfl
    | none =>
      have h1 : (getArchiveSectionFromRoot st root).2
          = (if st.addNewlinesAroundHeadings then addNewlinesToSection root
             else root).appendChild (buildArchiveSection st) := by
        unfold getArchiveSectionFromRoot
        rw [hcond', hf]
        rfl
      rw [h1]
      set base := (if st.addNewlinesAroundHeadings then addNewlinesToSection root else root)
      set root1 := base.appendChild (buildArchiveSection st)
      have hmem : (buildArchiveSection st).text ∈ root1.sectionTexts := by
        rw [sectionTexts_appendChild]
        refine List.mem_cons_of_mem _ (List.mem_append_right _ ?_)
        cases hb : buildArchiveSection st with
        | mk t2 l2 b2 cs2 =>

        exact hb ▸ List.mem_cons_self _ _
      cases hf1 : findSectionRecursively (archivePred st) root1 with
      | none =>
        exfalso
        have hall := (findSec_none_iff (isArchive st) root1).mp hf1
        have hx : headingPatternTest st.archiveHeading (buildArchiveSection st).text = false :=
          hall (buildArchiveSection st).text hmem
        rw [hpat] at hx
        cases hx
      | some s1 =>
        unfold getArchiveSectionFromRoot
        rw [hcond', hf1]
        rfl

/-! ### Depth recalculation of a moved heading sub-tree (claim C7) -/

mutual
theorem sectionLevels_shift (d : Int) (s : Section) :
    (shiftSectionLevels d s).sectionLevels = s.sectionLevels.map (fun x => x + d) := by
  cases s with
  | mk t l b cs =>
    show (l + d) :: sectionLevelsList (shiftSectionLevelsList d cs) = _
    rw [sectionLevelsList_shift d cs]
    simp [Section.sectionLevels]

theorem sectionLevelsList_shift (d : Int) (cs : List Section) :
    sectionLevelsList (shiftSectionLevelsList d cs)
      = (sectionLevelsList cs).map (fun x => x + d) := by
  cases cs with
  | nil => rfl
  | cons c cs2 =>
    show (shiftSectionLevels d c).sectionLevels ++ sectionLevelsList (shiftSectionLevelsList d cs2) = _
    rw [sectionLevels_shift d c, sectionLevelsList_shift d cs2]
    simp [sectionLevelsList]
end

theorem tokenLevel_shift (d : Int) (s : Section) :
    (shiftSectionLevels d s).tokenLevel = s.tokenLevel + d := by
  cases s
  rfl

/-- Claim C7: the sub-tree moved by `archiveHeadingUnderCursor` into a
destination archive section of level L is re-levelled so that its top
section gets tokenLevel L + 1 and every section of the sub-tree is shifted
by the same delta, preserving all relative depth differences; this is
exactly the edit `archiveSectionEdit` applies inside the destination
tree. -/
theorem movedHeading_relevelled_below_archive (st : Settings) (tree moved : Section) :
    ((Section.recalculateTokenLevels ((getArchiveSectionFromRoot st tree).1.tokenLevel + 1) moved).tokenLevel
        = (getArchiveSectionFromRoot st tree).1.tokenLevel + 1) ∧
    ((Section.recalculateTokenLevels ((getArchiveSectionFromRoot st tree).1.tokenLevel + 1) moved).sectionLevels
        = moved.sectionLevels.map
            (fun x => x + ((getArchiveSectionFromRoot st tree).1.tokenLevel + 1 - moved.tokenLevel))) ∧
    archiveSectionEdit st moved tree
      = updateArchiveSection st tree
          (fun arch => arch.appendChild
            (Section.recalculateTokenLevels (arch.tokenLevel + 1) moved)) := by
  refine ⟨?_, ?_, rfl⟩
  · unfold Section.recalculateTokenLevels
    rw [tokenLevel_shift]
    omega
  · unfold Section.recalculateTokenLevels
    rw [sectionLevels_shift]

end TaskArchiver
